import Mathlib

/-!
Verification of the notes synchronization engine.

The definitions below are a shallow embedding of the sync core of the
repository: the server reconciler (webapp sync route, `GET`/`POST`),
the workstation change detector (`cli/internal/watcher/watcher.go`),
the one-shot push/pull commands (`cli/cmd/notes-cli/main.go`) and the
browser optimistic store (`src/lib/notes-store.tsx`).  Timestamps are
naturals (milliseconds), database storage errors and local I/O errors
are explicit oracles, and the database is a list of rows.
-/

namespace NotesSync

/-- JavaScript `a || b` on strings: the empty string is falsy. -/
def jsOr (s d : String) : String :=
  if s = "" then d else s

/-- A row of the `notes` table (`lib/db/schema.ts`): `deletedAt` is the
nullable tombstone column; `createdAt`/`updatedAt` default to the time
of insertion. -/
structure NoteRow where
  id : Nat
  title : String
  content : String
  path : String
  checksum : String
  createdAt : Nat
  updatedAt : Nat
  deletedAt : Option Nat
deriving Repr, DecidableEq

/-- The authoritative server store. -/
abbrev Store := List NoteRow

/-- One element of the `changes` array of a push body. -/
structure Change where
  path : String
  title : String
  content : String
  checksum : String
  action : String
deriving Repr, DecidableEq

/-- The reply of the sync `POST` route. -/
structure SyncResult where
  accepted : List String
  conflicts : List String
deriving Repr, DecidableEq

/-- A `sync_log` audit row (only the fields the route writes). -/
structure SyncLogEntry where
  action : String
  clientId : String
deriving Repr, DecidableEq

/-- Server state: the `notes` table plus the append-only audit log. -/
structure ServerState where
  store : Store
  log : List SyncLogEntry
deriving Repr, DecidableEq

/-- `SELECT ... WHERE path = p LIMIT 1` — the row a path names, if any. -/
def findRow (st : Store) (p : String) : Option NoteRow :=
  st.find? (fun r => r.path = p)

/-- The `delete` branch of the sync `POST`: soft delete, setting only
`deletedAt` on every row matching the path (a zero-row update when the
path is absent). -/
def applyDelete (st : Store) (p : String) (t : Nat) : Store :=
  st.map (fun r => if r.path = p then { r with deletedAt := some t } else r)

/-- The `SET` clause of the upsert conflict branch: overwrite `title`,
`content`, `checksum`, clear `deletedAt`, refresh `updatedAt`; the
remaining columns (`id`, `path`, `createdAt`) keep their values.
Missing/empty fields default as in the route (`title || 'Untitled'`,
`content || ''`, `checksum || ''`). -/
def overwriteRow (c : Change) (t : Nat) (r : NoteRow) : NoteRow :=
  { r with
    title := jsOr c.title "Untitled"
    content := jsOr c.content ""
    checksum := jsOr c.checksum ""
    deletedAt := none
    updatedAt := t }

/-- The non-delete branch of the sync `POST`: insert a fresh row, or on
path conflict apply `overwriteRow` to the existing row. -/
def upsertNote (st : Store) (c : Change) (t : Nat) : Store :=
  if (findRow st c.path).isSome then
    st.map (fun r => if r.path = c.path then overwriteRow c t r else r)
  else
    st ++ [{ id := st.length
             title := jsOr c.title "Untitled"
             content := jsOr c.content ""
             path := c.path
             checksum := jsOr c.checksum ""
             createdAt := t
             updatedAt := t
             deletedAt := none }]

/-- One iteration of the `POST` loop body, without the error path. -/
def applyChange (st : Store) (c : Change) (t : Nat) : Store :=
  if c.action = "delete" then applyDelete st c.path t else upsertNote st c t

/-- The `POST` loop: each change is applied independently; a storage
error on item `i` (the oracle `errAt i`) leaves the store untouched and
records the path under `conflicts`, otherwise the path is recorded
under `accepted`; the loop always continues.  Returns the final store
and the `accepted` and `conflicts` arrays in push order. -/
def processChanges (st : Store) (cs : List Change) (errAt : Nat → Bool) (t : Nat) :
    Store × List String × List String :=
  match cs with
  | [] => (st, [], [])
  | c :: rest =>
    if errAt 0 then
      let out := processChanges st rest (fun i => errAt (i + 1)) t
      (out.1, out.2.1, c.path :: out.2.2)
    else
      let out := processChanges (applyChange st c t) rest (fun i => errAt (i + 1)) t
      (out.1, c.path :: out.2.1, out.2.2)

/-- The whole sync `POST`: process the batch, then append one audit row
per accepted path (the route logs `action: 'update'` for every accepted
item); a failing audit insert (`auditFails`) is swallowed and changes
nothing but the log. -/
def syncPOST (s : ServerState) (clientId : String) (cs : List Change)
    (errAt : Nat → Bool) (auditFails : Bool) (t : Nat) :
    SyncResult × ServerState :=
  let out := processChanges s.store cs errAt t
  let acc := out.2.1
  let newLog :=
    if acc.length > 0 && !auditFails then
      s.log ++ acc.map (fun _ => { action := "update", clientId := clientId })
    else s.log
  (⟨acc, out.2.2⟩, ⟨out.1, newLog⟩)

/-- The sync `GET`: with no watermark, every non-tombstoned row; with a
watermark, every row (tombstoned or not) whose `updatedAt` is strictly
after it. -/
def syncGET (st : Store) (since : Option Nat) : List NoteRow :=
  match since with
  | none => st.filter (fun r => r.deletedAt = none)
  | some w => st.filter (fun r => w < r.updatedAt)

/-! ### Change detector (`cli/internal/watcher/watcher.go`) -/

/-- A raw event delivered by the file-event source: its arrival time in
milliseconds, the file name, whether the Write bit is set, and the
outcome of `os.ReadFile` performed at that instant (`none` = the read
fails). -/
structure FsEvent where
  time : Nat
  name : String
  isWrite : Bool
  read : Option String
deriving Repr, DecidableEq

/-- The mutation the watcher emits for a file change. -/
structure FileChange where
  path : String
  fullPath : String
  content : String
  action : String
deriving Repr, DecidableEq

/-- `strings.HasSuffix` of Go (also the `.md` filter of the walk). -/
def hasSuffix (s t : String) : Bool :=
  t.toList.isSuffixOf s.toList

/-- `filepath.Rel(dir, name)` for the common case of a name below the
watched directory. -/
def relPath (dir name : String) : String :=
  if (dir ++ "/").toList.isPrefixOf name.toList then
    String.mk (name.toList.drop (dir ++ "/").toList.length)
  else name

/-- The per-path last-recorded-event map of the watcher. -/
abbrev DebounceMap := String → Option Nat

/-- One iteration of the `Watch` event loop: skip non-`.md` names; drop
the event when less than 500 ms has elapsed since the last recorded
event for that name; otherwise record the time and, for a Write event
whose read succeeds, emit the change (a failed read is skipped
silently, with the time already recorded). -/
def watchStep (dir : String) (deb : DebounceMap) (e : FsEvent) :
    DebounceMap × Option FileChange :=
  if !(hasSuffix e.name ".md") then (deb, none)
  else if (match deb e.name with
           | some last => decide (e.time - last < 500)
           | none => false) then (deb, none)
  else
    let deb' : DebounceMap := fun x => if x = e.name then some e.time else deb x
    if e.isWrite then
      match e.read with
      | none => (deb', none)
      | some c => (deb', some ⟨relPath dir e.name, e.name, c, "update"⟩)
    else (deb', none)

/-- Run the `Watch` loop over a finite trace of raw events, collecting
the emitted changes in order. -/
def runWatch (dir : String) (deb : DebounceMap) : List FsEvent → List FileChange
  | [] => []
  | e :: es =>
    match watchStep dir deb e with
    | (deb', none) => runWatch dir deb' es
    | (deb', some fc) => fc :: runWatch dir deb' es

/-- A file met by `filepath.Walk`: its name and the outcome of reading
it (`none` = `os.ReadFile` fails). -/
structure DiskFile where
  path : String
  read : Option String
deriving Repr, DecidableEq

/-- `ReadAllNotes`: walk the tree collecting every `.md` file as an
`update` change; a failed read returns the error from the walk
callback, which aborts the remaining traversal. -/
def readAllNotes (dir : String) : List DiskFile → Except String (List FileChange)
  | [] => .ok []
  | f :: fs =>
    if !(hasSuffix f.path ".md") then readAllNotes dir fs
    else
      match f.read with
      | none => .error ("failed to read " ++ f.path)
      | some c =>
        match readAllNotes dir fs with
        | .error e => .error e
        | .ok rest => .ok (⟨relPath dir f.path, f.path, c, "update"⟩ :: rest)

/-! ### One-shot CLI commands (`cli/cmd/notes-cli/main.go`) -/

/-- The tail of `pushNotes`: push the batch, then fail the run exactly
when the number of accepted paths differs from the number of mutations
sent; the store changes made for the accepted subset stand either
way. -/
def pushNotesRun (st : Store) (batch : List Change) (errAt : Nat → Bool) (t : Nat) :
    Except String Unit × Store :=
  let out := processChanges st batch errAt t
  (if out.2.1.length ≠ batch.length then
     .error "incomplete sync"
   else .ok (), out.1)

/-- One note of a pull reply together with the outcomes of the local
`os.MkdirAll` and `os.WriteFile` calls that applying it performs. -/
structure PullItem where
  path : String
  content : String
  mkdirOk : Bool
  writeOk : Bool
deriving Repr, DecidableEq

/-- The apply loop of `pullNotes`: write each pulled note to disk; a
failed directory creation or file write returns an error immediately,
leaving the remaining notes unapplied.  Returns the writes performed
and the error, if any. -/
def pullNotesApply : List PullItem → List (String × String) × Option String
  | [] => ([], none)
  | n :: ns =>
    if !n.mkdirOk then ([], some "failed to create directory")
    else if !n.writeOk then ([], some ("failed to write " ++ n.path))
    else
      let out := pullNotesApply ns
      ((n.path, n.content) :: out.1, out.2)

/-! ### Browser optimistic store (`src/lib/notes-store.tsx`) -/

/-- A queued sync closure: its operation kind, display title, and the
payload the captured fetch would send (the updates of the edit). -/
structure QEntry where
  kind : String
  title : String
  payload : String
deriving Repr, DecidableEq

/-- `Map.set` of JavaScript: replacing the value of a present key keeps
its insertion position; a new key is appended (keys are unique, so
replacing the first occurrence is replacing the only one). -/
def mapSet : List (String × QEntry) → String → QEntry → List (String × QEntry)
  | [], k, v => [(k, v)]
  | kv :: rest, k, v =>
    if kv.1 = k then (k, v) :: rest else kv :: mapSet rest k v

/-- Browser store state: the sync queue (a `Map` in insertion order),
the entry whose fetch is currently awaited, and the network calls
issued so far as `(queue key, payload)` pairs. -/
structure BrowserState where
  queue : List (String × QEntry)
  inflight : Option (String × QEntry)
  calls : List (String × String)
deriving Repr, DecidableEq

/-- `updateNote`: queue the edit under the key `update-<id>`,
replacing any entry already queued for that note. -/
def updateNote (s : BrowserState) (id payload : String) : BrowserState :=
  { s with queue := mapSet s.queue ("update-" ++ id) ⟨"update", "", payload⟩ }

/-- The head of the `processQueue` while-loop body: when the worker is
idle and the queue is non-empty, remove the first entry and issue its
fetch (the awaited call is now in flight). -/
def workerStart (s : BrowserState) : BrowserState :=
  match s.inflight, s.queue with
  | none, kv :: rest =>
    { queue := rest, inflight := some kv, calls := s.calls ++ [(kv.1, kv.2.payload)] }
  | _, _ => s

/-- The awaited fetch resolves; the loop then reexamines the queue. -/
def workerFinish (s : BrowserState) : BrowserState :=
  { s with inflight := none }

/-- An interleaving step of the browser store: an edit handler runs, or
the serial worker dequeues-and-sends, or an in-flight call resolves. -/
inductive BAction where
  | edit (id : String) (payload : String)
  | start
  | finish
deriving Repr, DecidableEq

/-- Execute a schedule of browser-store steps. -/
def brun (s : BrowserState) : List BAction → BrowserState
  | [] => s
  | a :: as' =>
    match a with
    | .edit id payload => brun (updateNote s id payload) as'
    | .start => brun (workerStart s) as'
    | .finish => brun (workerFinish s) as'

/-! ### Helper lemmas -/

lemma jsOr_empty (s : String) : jsOr s "" = s := by
  unfold jsOr; split <;> simp_all

lemma findRow_map_of_path_eq (f : NoteRow → NoteRow)
    (hf : ∀ r, (f r).path = r.path) (st : Store) (p : String) :
    findRow (st.map f) p = (findRow st p).map f := by
  induction st with
  | nil => rfl
  | cons a l ih =>
    by_cases h : a.path = p
    · have h' : (f a).path = p := by rw [hf]; exact h
      simp [findRow, List.find?_cons, h, h']
    · have h' : ¬(f a).path = p := by rw [hf]; exact h
      simpa [findRow, List.find?_cons, h, h'] using ih

lemma findRow_mem_path {st : Store} {p : String} {r : NoteRow}
    (h : findRow st p = some r) : r.path = p := by
  have := List.find?_some h
  simpa using this

lemma overwriteRow_path (c : Change) (t : Nat) (r : NoteRow) :
    (overwriteRow c t r).path = r.path := rfl

/-- The conflict branch of the upsert rewrites exactly the row the path
names. -/
lemma findRow_upsertNote_self (st : Store) (c : Change) (t : Nat) (r : NoteRow)
    (h : findRow st c.path = some r) :
    findRow (upsertNote st c t) c.path = some (overwriteRow c t r) := by
  have hsome : (findRow st c.path).isSome := by rw [h]; rfl
  rw [upsertNote, if_pos hsome]
  rw [findRow_map_of_path_eq (fun r => if r.path = c.path then overwriteRow c t r else r)
        (by intro r'; by_cases hp : r'.path = c.path <;> simp [hp, overwriteRow_path])]
  rw [h]
  simp [findRow_mem_path h]

/-- The delete branch and the conflict branch touch only rows at the
mutated path: every other path resolves to the same row afterwards. -/
lemma findRow_applyChange_other (st : Store) (c : Change) (t : Nat) (q : String)
    (hq : q ≠ c.path) :
    findRow (applyChange st c t) q = findRow st q := by
  have map_case : ∀ (f : NoteRow → NoteRow), (∀ r, (f r).path = r.path) →
      (∀ r, r.path ≠ c.path → f r = r) → findRow (st.map f) q = findRow st q := by
    intro f hf hfix
    rw [findRow_map_of_path_eq f hf]
    cases hfind : findRow st q with
    | none => rfl
    | some r =>
      have hr : r.path = q := findRow_mem_path hfind
      simp [hfix r (by rw [hr]; exact hq)]
  rw [applyChange]
  split
  · exact map_case _ (fun r => by by_cases hp : r.path = c.path <;> simp [hp])
      (fun r hr => by simp [hr])
  · rw [upsertNote]
    split
    · exact map_case _
        (fun r => by by_cases hp : r.path = c.path <;> simp [hp, overwriteRow_path])
        (fun r hr => by simp [hr])
    · rw [findRow, List.find?_append]
      cases hfind : findRow st q with
      | some r => simp [findRow] at hfind; simp [hfind, findRow]
      | none =>
        rw [findRow] at hfind
        rw [hfind]
        simp [List.find?, Ne.symm hq]

/-- A non-delete mutation whose path names a stored row overwrites that
row in place. -/
lemma findRow_applyChange_self (st : Store) (c : Change) (t : Nat) (r : NoteRow)
    (hne : c.action ≠ "delete") (h : findRow st c.path = some r) :
    findRow (applyChange st c t) c.path = some (overwriteRow c t r) := by
  rw [applyChange, if_neg hne]
  exact findRow_upsertNote_self st c t r h

/-- A zero-row delete: when the path names no row, the delete branch is
the identity on the store. -/
lemma applyDelete_absent (st : Store) (p : String) (t : Nat)
    (h : findRow st p = none) : applyDelete st p t = st := by
  have habs : ∀ r ∈ st, ¬(r.path = p) := by
    intro r hr
    have := List.find?_eq_none.mp h r hr
    simpa using this
  rw [applyDelete]
  have : ∀ r ∈ st, (if r.path = p then { r with deletedAt := some t } else r) = r := by
    intro r hr; simp [habs r hr]
  calc st.map _ = st.map id := List.map_congr_left this
    _ = st := List.map_id st

lemma processChanges_cons_err (st : Store) (c : Change) (rest : List Change)
    (errAt : Nat → Bool) (t : Nat) (h : errAt 0 = true) :
    processChanges st (c :: rest) errAt t =
      ((processChanges st rest (fun i => errAt (i + 1)) t).1,
       (processChanges st rest (fun i => errAt (i + 1)) t).2.1,
       c.path :: (processChanges st rest (fun i => errAt (i + 1)) t).2.2) := by
  rw [processChanges, if_pos h]

lemma processChanges_cons_ok (st : Store) (c : Change) (rest : List Change)
    (errAt : Nat → Bool) (t : Nat) (h : errAt 0 = false) :
    processChanges st (c :: rest) errAt t =
      ((processChanges (applyChange st c t) rest (fun i => errAt (i + 1)) t).1,
       c.path :: (processChanges (applyChange st c t) rest (fun i => errAt (i + 1)) t).2.1,
       (processChanges (applyChange st c t) rest (fun i => errAt (i + 1)) t).2.2) := by
  rw [processChanges, if_neg (by simp [h])]

/-- Every accepted path is the path of some mutation of the batch. -/
lemma processChanges_accepted_sub (st : Store) (cs : List Change)
    (errAt : Nat → Bool) (t : Nat) :
    (processChanges st cs errAt t).2.1 ⊆ cs.map Change.path := by
  induction cs generalizing st errAt with
  | nil => simp [processChanges]
  | cons c rest ih =>
    cases herr : errAt 0 with
    | true =>
      rw [processChanges_cons_err st c rest errAt t herr]
      exact fun p hp => by simpa using Or.inr (ih st (fun i => errAt (i + 1)) hp)
    | false =>
      rw [processChanges_cons_ok st c rest errAt t herr]
      intro p hp
      rcases List.mem_cons.mp hp with hp | hp
      · simp [hp]
      · simpa using Or.inr (ih (applyChange st c t) (fun i => errAt (i + 1)) hp)

/-- Every conflicted path is the path of some mutation of the batch. -/
lemma processChanges_conflicts_sub (st : Store) (cs : List Change)
    (errAt : Nat → Bool) (t : Nat) :
    (processChanges st cs errAt t).2.2 ⊆ cs.map Change.path := by
  induction cs generalizing st errAt with
  | nil => simp [processChanges]
  | cons c rest ih =>
    cases herr : errAt 0 with
    | true =>
      rw [processChanges_cons_err st c rest errAt t herr]
      intro p hp
      rcases List.mem_cons.mp hp with hp | hp
      · simp [hp]
      · simpa using Or.inr (ih st (fun i => errAt (i + 1)) hp)
    | false =>
      rw [processChanges_cons_ok st c rest errAt t herr]
      exact fun p hp => by simpa using Or.inr (ih (applyChange st c t) (fun i => errAt (i + 1)) hp)

/-- Each mutation of the batch lands in exactly one of the two lists. -/
lemma processChanges_length (st : Store) (cs : List Change)
    (errAt : Nat → Bool) (t : Nat) :
    (processChanges st cs errAt t).2.1.length
      + (processChanges st cs errAt t).2.2.length = cs.length := by
  induction cs generalizing st errAt with
  | nil => simp [processChanges]
  | cons c rest ih =>
    cases herr : errAt 0 with
    | true =>
      rw [processChanges_cons_err st c rest errAt t herr]
      have := ih st (fun i => errAt (i + 1))
      simp only [List.length_cons]
      omega
    | false =>
      rw [processChanges_cons_ok st c rest errAt t herr]
      have := ih (applyChange st c t) (fun i => errAt (i + 1))
      simp only [List.length_cons]
      omega

/-- With no duplicate path in the batch, no path is both accepted and
conflicted. -/
lemma processChanges_disjoint (st : Store) (cs : List Change)
    (errAt : Nat → Bool) (t : Nat) (h : (cs.map Change.path).Nodup) :
    (processChanges st cs errAt t).2.1.Disjoint (processChanges st cs errAt t).2.2 := by
  induction cs generalizing st errAt with
  | nil => simp [processChanges, List.Disjoint]
  | cons c rest ih =>
    rw [List.map_cons] at h
    have hhead : c.path ∉ rest.map Change.path := (List.nodup_cons.mp h).1
    have htail : (rest.map Change.path).Nodup := (List.nodup_cons.mp h).2
    cases herr : errAt 0 with
    | true =>
      rw [processChanges_cons_err st c rest errAt t herr]
      intro p hpa hpc
      rcases List.mem_cons.mp hpc with hpc | hpc
      · exact hhead (hpc ▸ processChanges_accepted_sub _ _ _ _ hpa)
      · exact ih st (fun i => errAt (i + 1)) htail hpa hpc
    | false =>
      rw [processChanges_cons_ok st c rest errAt t herr]
      intro p hpa hpc
      rcases List.mem_cons.mp hpa with hpa | hpa
      · exact hhead (hpa ▸ processChanges_conflicts_sub _ _ _ _ hpc)
      · exact ih (applyChange st c t) (fun i => errAt (i + 1)) htail hpa hpc

/-- Setting the same key twice keeps only the second value. -/
lemma mapSet_mapSet (q : List (String × QEntry)) (k : String) (v1 v2 : QEntry) :
    mapSet (mapSet q k v1) k v2 = mapSet q k v2 := by
  induction q with
  | nil => simp [mapSet]
  | cons kv rest ih =>
    by_cases h : kv.1 = k
    · simp [mapSet, h]
    · simp [mapSet, h, ih]

/-! ### Claim theorems -/

/-- C1: a non-delete mutation whose path already names a stored note
overwrites that note in place — `title`, `content` and `checksum` are
replaced by the values derived from the mutation, `deletedAt` is set to
null (un-tombstoning the row), `updatedAt` is refreshed to the
processing time, `id`, `path` and `createdAt` are kept — and every
other path resolves to the same row as before. -/
theorem upsert_conflict_overwrites_and_untombstones
    (st : Store) (c : Change) (t : Nat) (r : NoteRow)
    (hne : c.action ≠ "delete") (h : findRow st c.path = some r) :
    findRow (applyChange st c t) c.path =
      some { r with
             title := jsOr c.title "Untitled"
             content := jsOr c.content ""
             checksum := jsOr c.checksum ""
             deletedAt := none
             updatedAt := t }
    ∧ ∀ q, q ≠ c.path → findRow (applyChange st c t) q = findRow st q :=
  ⟨findRow_applyChange_self st c t r hne h,
   fun q hq => findRow_applyChange_other st c t q hq⟩

/-- Witness for C1: updating a tombstoned note at `a.md` overwrites its
fields, clears the tombstone and refreshes `updatedAt`, while `b.md`
resolves as before. -/
theorem upsert_conflict_overwrites_witness :
    findRow (applyChange [⟨7, "Old", "old", "a.md", "c0", 10, 20, some 30⟩]
        ⟨"a.md", "New", "new", "c9", "update"⟩ 40) "a.md" =
      some ⟨7, "New", "new", "a.md", "c9", 10, 40, none⟩
    ∧ findRow (applyChange [⟨7, "Old", "old", "a.md", "c0", 10, 20, some 30⟩]
        ⟨"a.md", "New", "new", "c9", "update"⟩ 40) "b.md" =
      findRow [⟨7, "Old", "old", "a.md", "c0", 10, 20, some 30⟩] "b.md" := by
  have h := upsert_conflict_overwrites_and_untombstones
      [⟨7, "Old", "old", "a.md", "c0", 10, 20, some 30⟩]
      ⟨"a.md", "New", "new", "c9", "update"⟩ 40
      ⟨7, "Old", "old", "a.md", "c0", 10, 20, some 30⟩ (by decide) (by decide)
  exact ⟨h.1.trans (by decide), h.2 "b.md" (by decide)⟩

/-- C2: the delete branch sets `deletedAt` but leaves `updatedAt`
untouched, while the watermark pull filters on `updatedAt` alone.  For
a note last written at time 1 and deleted at time 3: the no-watermark
pull omits it (as the claim says), but the pull with watermark 2 —
strictly before the delete — also returns nothing, against the claimed
behaviour; only a watermark before the last content update (here 0)
sees the tombstone. -/
theorem tombstone_invisible_to_watermark_pull :
    applyChange [⟨0, "A", "hello", "a.md", "c1", 1, 1, none⟩]
        ⟨"a.md", "", "", "", "delete"⟩ 3 =
      [⟨0, "A", "hello", "a.md", "c1", 1, 1, some 3⟩]
    ∧ syncGET [⟨0, "A", "hello", "a.md", "c1", 1, 1, some 3⟩] none = []
    ∧ syncGET [⟨0, "A", "hello", "a.md", "c1", 1, 1, some 3⟩] (some 2) = []
    ∧ syncGET [⟨0, "A", "hello", "a.md", "c1", 1, 1, some 3⟩] (some 0) =
        [⟨0, "A", "hello", "a.md", "c1", 1, 1, some 3⟩] := by
  refine ⟨by decide, by decide, by decide, by decide⟩

/-- Counterexample to C3 as stated: a batch that names the same path
twice, where the storage operation fails only for the second item,
yields `accepted = ["a.md"]` and `conflicts = ["a.md"]` — the two lists
are not disjoint. -/
theorem accepted_conflicts_overlap_cex :
    (syncPOST ⟨[], []⟩ "cli"
        [⟨"a.md", "A", "x", "c1", "update"⟩, ⟨"a.md", "A", "y", "c2", "update"⟩]
        (fun i => i == 1) false 0).1 =
      ⟨["a.md"], ["a.md"]⟩ := by
  decide

/-- C3 (amended): every accepted or conflicted path occurs in the input
batch, each mutation contributes its path to exactly one of the two
lists, and — whenever the batch contains no duplicate path — the two
lists are disjoint. -/
theorem accepted_conflicts_partition (st : Store) (cs : List Change)
    (errAt : Nat → Bool) (t : Nat) :
    (processChanges st cs errAt t).2.1 ⊆ cs.map Change.path
    ∧ (processChanges st cs errAt t).2.2 ⊆ cs.map Change.path
    ∧ (processChanges st cs errAt t).2.1.length
        + (processChanges st cs errAt t).2.2.length = cs.length
    ∧ ((cs.map Change.path).Nodup →
        (processChanges st cs errAt t).2.1.Disjoint
          (processChanges st cs errAt t).2.2) :=
  ⟨processChanges_accepted_sub st cs errAt t,
   processChanges_conflicts_sub st cs errAt t,
   processChanges_length st cs errAt t,
   fun h => processChanges_disjoint st cs errAt t h⟩

/-- Witness for C3: on a duplicate-free two-item batch whose second
item fails, the lists are disjoint and the accepted list covers only
input paths. -/
theorem accepted_conflicts_partition_witness :
    (processChanges []
        [⟨"a.md", "A", "x", "c1", "update"⟩, ⟨"b.md", "B", "y", "c2", "update"⟩]
        (fun i => i == 1) 0).2.1.Disjoint
      (processChanges []
        [⟨"a.md", "A", "x", "c1", "update"⟩, ⟨"b.md", "B", "y", "c2", "update"⟩]
        (fun i => i == 1) 0).2.2
    ∧ (processChanges []
        [⟨"a.md", "A", "x", "c1", "update"⟩, ⟨"b.md", "B", "y", "c2", "update"⟩]
        (fun i => i == 1) 0).2.1 ⊆ ["a.md", "b.md"] := by
  have h := accepted_conflicts_partition []
      [⟨"a.md", "A", "x", "c1", "update"⟩, ⟨"b.md", "B", "y", "c2", "update"⟩]
      (fun i => i == 1) 0
  exact ⟨h.2.2.2 (by decide), h.1⟩

/-- C4: the audit-log insert happens after the batch is processed and
its failure is swallowed, so neither the returned accepted/conflicts
lists nor the stored notes depend on whether it fails. -/
theorem audit_failure_preserves_sync_result (s : ServerState) (cid : String)
    (cs : List Change) (errAt : Nat → Bool) (t : Nat) (b1 b2 : Bool) :
    (syncPOST s cid cs errAt b1 t).1 = (syncPOST s cid cs errAt b2 t).1
    ∧ (syncPOST s cid cs errAt b1 t).2.store = (syncPOST s cid cs errAt b2 t).2.store :=
  ⟨rfl, rfl⟩

/-- Counterexample to C5 as stated: the route stores `title ||
'Untitled'`, so a second mutation whose title is the empty string
leaves the row titled `"Untitled"`, not with exactly the title of the
second mutation. -/
theorem lww_exact_fields_cex :
    (findRow (applyChange (applyChange [⟨0, "Old", "x", "a.md", "c0", 0, 0, none⟩]
          ⟨"a.md", "A", "hello", "c1", "update"⟩ 1)
        ⟨"a.md", "", "world", "c2", "update"⟩ 2) "a.md").map NoteRow.title =
      some "Untitled"
    ∧ ("Untitled" : String) ≠ "" ∧ ("hello" : String) ≠ "world" := by
  refine ⟨by decide, by decide, by decide⟩

/-- C5 (amended): applying `m1` then `m2` (non-delete, same path,
possibly different content) in sequence leaves the row at that path
holding exactly the content and checksum of `m2`, and the title of
`m2` except that an empty title is stored as `"Untitled"`, with
`updatedAt` the time of the second application — the same row that
applying `m2` alone to the store already containing the path
produces. -/
theorem lww_second_push_wins (st : Store) (m1 m2 : Change) (t1 t2 : Nat) (r : NoteRow)
    (h1 : m1.action ≠ "delete") (h2 : m2.action ≠ "delete")
    (hp : m2.path = m1.path) (h : findRow st m1.path = some r) :
    findRow (applyChange (applyChange st m1 t1) m2 t2) m1.path =
      some { r with
             title := jsOr m2.title "Untitled"
             content := m2.content
             checksum := m2.checksum
             deletedAt := none
             updatedAt := t2 }
    ∧ findRow (applyChange st m2 t2) m1.path =
      some { r with
             title := jsOr m2.title "Untitled"
             content := m2.content
             checksum := m2.checksum
             deletedAt := none
             updatedAt := t2 } := by
  have s1 : findRow (applyChange st m1 t1) m1.path = some (overwriteRow m1 t1 r) :=
    findRow_applyChange_self st m1 t1 r h1 h
  have s2 : findRow (applyChange (applyChange st m1 t1) m2 t2) m2.path
      = some (overwriteRow m2 t2 (overwriteRow m1 t1 r)) :=
    findRow_applyChange_self _ m2 t2 _ h2 (by rw [hp]; exact s1)
  have s3 : findRow (applyChange st m2 t2) m2.path = some (overwriteRow m2 t2 r) :=
    findRow_applyChange_self st m2 t2 r h2 (by rw [hp]; exact h)
  rw [hp] at s2 s3
  constructor
  · rw [s2]; simp [overwriteRow, jsOr_empty]
  · rw [s3]; simp [overwriteRow, jsOr_empty]

/-- Witness for C5: two sequential pushes to `a.md` leave exactly the
second push's fields, identical to pushing only the second one. -/
theorem lww_second_push_wins_witness :
    findRow (applyChange (applyChange [⟨0, "Old", "x", "a.md", "c0", 0, 0, none⟩]
          ⟨"a.md", "A", "hello", "c1", "update"⟩ 1)
        ⟨"a.md", "B", "world", "c2", "update"⟩ 2) "a.md" =
      some ⟨0, "B", "world", "a.md", "c2", 0, 2, none⟩
    ∧ findRow (applyChange [⟨0, "Old", "x", "a.md", "c0", 0, 0, none⟩]
        ⟨"a.md", "B", "world", "c2", "update"⟩ 2) "a.md" =
      some ⟨0, "B", "world", "a.md", "c2", 0, 2, none⟩ := by
  have h := lww_second_push_wins [⟨0, "Old", "x", "a.md", "c0", 0, 0, none⟩]
      ⟨"a.md", "A", "hello", "c1", "update"⟩ ⟨"a.md", "B", "world", "c2", "update"⟩
      1 2 ⟨0, "Old", "x", "a.md", "c0", 0, 0, none⟩
      (by decide) (by decide) rfl (by decide)
  exact ⟨h.1.trans (by decide), h.2.trans (by decide)⟩

/-- C6: the per-path rate limiter drops a write event when less than
500 ms has elapsed since the last recorded event for that path, and
otherwise records the new time and emits the change carrying the
content read at that instant; in particular, writes to one path at
0 ms, 100 ms, 600 ms and 650 ms emit exactly the events at 0 ms and
600 ms, each with the content on disk at its emission time. -/
theorem detector_rate_limiter (dir : String) (deb : DebounceMap) (e : FsEvent)
    (last : Nat) (c : String)
    (hmd : hasSuffix e.name ".md" = true) (hw : e.isWrite = true)
    (hr : e.read = some c) (hdeb : deb e.name = some last) :
    (e.time - last < 500 → watchStep dir deb e = (deb, none))
    ∧ (500 ≤ e.time - last →
        watchStep dir deb e =
          ((fun x => if x = e.name then some e.time else deb x),
           some ⟨relPath dir e.name, e.name, c, "update"⟩))
    ∧ runWatch "notes" (fun _ => none)
        [⟨0, "notes/a.md", true, some "c0"⟩, ⟨100, "notes/a.md", true, some "c1"⟩,
         ⟨600, "notes/a.md", true, some "c2"⟩, ⟨650, "notes/a.md", true, some "c3"⟩] =
      [⟨"a.md", "notes/a.md", "c0", "update"⟩,
       ⟨"a.md", "notes/a.md", "c2", "update"⟩] := by
  refine ⟨?_, ?_, ?_⟩
  · intro hlt
    simp [watchStep, hmd, hdeb, hlt]
  · intro hge
    simp [watchStep, hmd, hdeb, hw, hr, Nat.not_lt.mpr hge]
  · decide

/-- Witness for C6: with `notes/a.md` last recorded at time 0, a write
at 100 ms is dropped and a write at 600 ms is emitted with the content
read then. -/
theorem detector_rate_limiter_witness :
    (watchStep "notes" (fun x => if x = "notes/a.md" then some 0 else none)
        ⟨100, "notes/a.md", true, some "c1"⟩).2 = none
    ∧ (watchStep "notes" (fun x => if x = "notes/a.md" then some 0 else none)
        ⟨600, "notes/a.md", true, some "c2"⟩).2 =
      some ⟨"a.md", "notes/a.md", "c2", "update"⟩ := by
  have h1 := detector_rate_limiter "notes"
      (fun x => if x = "notes/a.md" then some 0 else none)
      ⟨100, "notes/a.md", true, some "c1"⟩ 0 "c1" (by decide) rfl rfl (by simp)
  have h2 := detector_rate_limiter "notes"
      (fun x => if x = "notes/a.md" then some 0 else none)
      ⟨600, "notes/a.md", true, some "c2"⟩ 0 "c2" (by decide) rfl rfl (by simp)
  exact ⟨by rw [h1.1 (by decide)],
         (congrArg Prod.snd (h2.2.1 (by decide))).trans (by decide)⟩

/-- Counterexample to C7 as stated: an edit issued while the first
mutation for the same note is already in flight (the first sync has
started but not completed) lands in the queue as a fresh entry, and
draining the queue issues a second network call for the note — the
calls list ends up with two entries for `update-a`, not one. -/
theorem second_edit_in_flight_two_calls_cex :
    (brun ⟨[], none, []⟩
        [.edit "a" "v1", .start, .edit "a" "v2", .finish, .start]).calls =
      [("update-a", "v1"), ("update-a", "v2")]
    ∧ (brun ⟨[], none, []⟩ [.edit "a" "v1", .start]).inflight =
        some ("update-a", ⟨"update", "", "v1"⟩) := by
  refine ⟨by decide, by decide⟩

/-- C7 (amended): a second edit to the same note issued while the first
mutation is still queued (the worker has not yet dequeued it) replaces
the queued mutation in place — two successive edits leave the whole
store state exactly as the second edit alone would — and draining the
queue then makes exactly one network call for the note, carrying only
the final edit's payload. -/
theorem queued_edit_collapse (s : BrowserState) (id p1 p2 : String) :
    updateNote (updateNote s id p1) id p2 = updateNote s id p2
    ∧ (brun ⟨[], none, []⟩ [.edit id p1, .edit id p2, .start, .finish]).calls =
      [("update-" ++ id, p2)] := by
  constructor
  · unfold updateNote
    simp [mapSet_mapSet]
  · simp [brun, updateNote, workerStart, workerFinish, mapSet]

/-- C8: a one-shot push run succeeds exactly when the number of
accepted paths equals the number of mutations sent; the store changes
made for the accepted subset stand either way, and every mutation lands
in exactly one of the two reply lists, so any conflicted path makes the
run fail. -/
theorem push_partial_acceptance_hard_failure (st : Store) (batch : List Change)
    (errAt : Nat → Bool) (t : Nat) :
    ((pushNotesRun st batch errAt t).1 = .ok () ↔
      (processChanges st batch errAt t).2.1.length = batch.length)
    ∧ (pushNotesRun st batch errAt t).2 = (processChanges st batch errAt t).1
    ∧ (processChanges st batch errAt t).2.1.length
        + (processChanges st batch errAt t).2.2.length = batch.length := by
  refine ⟨?_, rfl, processChanges_length st batch errAt t⟩
  unfold pushNotesRun
  by_cases h : (processChanges st batch errAt t).2.1.length = batch.length
  · simp [h]
  · simp [h]

/-- Counterexample to C9 as stated: in the one-shot bulk read an
unreadable file aborts the whole traversal with an error (the readable
`d/b.md` after it is never returned), and in applying a pull result a
failed file write aborts the remaining application (the second note is
never written) — the one item is not skipped. -/
theorem bulk_read_aborts_on_unreadable_cex :
    readAllNotes "d" [⟨"d/a.md", none⟩, ⟨"d/b.md", some "x"⟩] =
      .error "failed to read d/a.md"
    ∧ pullNotesApply [⟨"a.md", "x", true, false⟩, ⟨"b.md", "y", true, true⟩] =
        ([], some "failed to write a.md") := by
  refine ⟨rfl, rfl⟩

/-- C9 (amended): only the watch event loop treats a per-item local
I/O error as non-fatal — a failed read there emits nothing and the loop
continues with the remaining events; the bulk read aborts with an error
at the first unreadable `.md` file, and applying a pull result aborts
at the first failed directory creation or file write. -/
theorem local_io_error_handling :
    (∀ (dir : String) (deb : DebounceMap) (e : FsEvent) (es : List FsEvent),
        e.read = none →
        (watchStep dir deb e).2 = none
        ∧ runWatch dir deb (e :: es) = runWatch dir (watchStep dir deb e).1 es)
    ∧ (∀ (dir : String) (f : DiskFile) (fs : List DiskFile),
        hasSuffix f.path ".md" = true → f.read = none →
        readAllNotes dir (f :: fs) = .error ("failed to read " ++ f.path))
    ∧ (∀ (n : PullItem) (ns : List PullItem),
        n.mkdirOk = false →
        pullNotesApply (n :: ns) = ([], some "failed to create directory"))
    ∧ (∀ (n : PullItem) (ns : List PullItem),
        n.mkdirOk = true → n.writeOk = false →
        pullNotesApply (n :: ns) = ([], some ("failed to write " ++ n.path))) := by
  refine ⟨?_, ?_, ?_, ?_⟩
  · intro dir deb e es hr
    have h2 : (watchStep dir deb e).2 = none := by
      rw [watchStep, hr]
      split
      · rfl
      · split
        · rfl
        · split <;> rfl
    refine ⟨h2, ?_⟩
    rw [runWatch]
    rcases hws : watchStep dir deb e with ⟨deb', o⟩
    rw [hws] at h2
    simp at h2
    subst h2
    rfl
  · intro dir f fs hmd hr
    rw [readAllNotes, hmd, hr]
    rfl
  · intro n ns hmk
    rw [pullNotesApply, hmk]
    rfl
  · intro n ns hmk hwr
    rw [pullNotesApply, hmk, hwr]
    rfl

/-- Witness for C9 (amended): a failed read in the watch loop is
skipped with the loop continuing; a failed mkdir aborts the pull
application; an unreadable file aborts the bulk read. -/
theorem local_io_error_handling_witness :
    (watchStep "d" (fun _ => none) ⟨0, "d/a.md", true, none⟩).2 = none
    ∧ runWatch "d" (fun _ => none) [⟨0, "d/a.md", true, none⟩] =
        runWatch "d" (watchStep "d" (fun _ => none) ⟨0, "d/a.md", true, none⟩).1 []
    ∧ pullNotesApply [⟨"a.md", "x", false, true⟩] =
        ([], some "failed to create directory")
    ∧ readAllNotes "d" [⟨"d/c.md", none⟩] = .error "failed to read d/c.md" := by
  refine ⟨(local_io_error_handling.1 "d" (fun _ => none) ⟨0, "d/a.md", true, none⟩ [] rfl).1,
          (local_io_error_handling.1 "d" (fun _ => none) ⟨0, "d/a.md", true, none⟩ [] rfl).2,
          local_io_error_handling.2.2.1 ⟨"a.md", "x", false, true⟩ [] rfl,
          local_io_error_handling.2.1 "d" ⟨"d/c.md", none⟩ [] (by decide) rfl⟩

/-- C10: a delete mutation whose path names no stored row is a zero-row
update that completes without a storage error — the path is reported in
`accepted`, the store is unchanged. -/
theorem delete_absent_path_accepted (st : Store) (c : Change) (t : Nat) (cid : String)
    (hdel : c.action = "delete") (habs : findRow st c.path = none) :
    applyChange st c t = st
    ∧ (syncPOST ⟨st, []⟩ cid [c] (fun _ => false) false t).1 = ⟨[c.path], []⟩
    ∧ (syncPOST ⟨st, []⟩ cid [c] (fun _ => false) false t).2.store = st := by
  have h1 : applyChange st c t = st := by
    rw [applyChange, if_pos hdel]
    exact applyDelete_absent st c.path t habs
  have hpc : processChanges st [c] (fun _ => false) t = (st, [c.path], []) := by
    rw [processChanges_cons_ok st c [] (fun _ => false) t rfl, h1]
    rfl
  refine ⟨h1, ?_, ?_⟩
  · simp [syncPOST, hpc]
  · simp [syncPOST, hpc]

/-- Witness for C10: deleting the absent path `a.md` from a store
holding only `b.md` is accepted and changes nothing. -/
theorem delete_absent_path_accepted_witness :
    applyChange [⟨0, "B", "b", "b.md", "cb", 0, 0, none⟩]
        ⟨"a.md", "", "", "", "delete"⟩ 5 =
      [⟨0, "B", "b", "b.md", "cb", 0, 0, none⟩]
    ∧ (syncPOST ⟨[⟨0, "B", "b", "b.md", "cb", 0, 0, none⟩], []⟩ "cli"
        [⟨"a.md", "", "", "", "delete"⟩] (fun _ => false) false 5).1 =
      ⟨["a.md"], []⟩ := by
  have h := delete_absent_path_accepted [⟨0, "B", "b", "b.md", "cb", 0, 0, none⟩]
      ⟨"a.md", "", "", "", "delete"⟩ 5 "cli" rfl (by decide)
  exact ⟨h.1, h.2.1⟩

end NotesSync
